import Mathlib

/-!
Verification of the berglas repository examples and of the secret
resolution engine described by its specification.

The repository fragment under study consists of two Python example
programs, a Cloud Functions handler (examples/cloudfunctions/python/main.py)
and a Cloud Run Flask app (examples/cloudrun/python/app.py).  Both read the
environment variables API_KEY and TLS_KEY, treat TLS_KEY as a file path,
and format a text body from those values.  The resolution engine itself is
not part of the visible fragment; where a claim concerns it, the engine is
modelled from the specification text, and each such definition is marked.
-/

namespace Berglas

/-! ## Embedding of the example handlers

An environment is a partial map from variable name to value, mirroring
`os.environ.get` returning `None` for unset variables.  A filesystem is a
partial map from path to the full contents of an existing regular file;
`fs p = none` models `os.path.isfile(p)` being false. -/

/-- How Python `str.format` renders an `os.environ.get` result: an unset
variable (Python `None`) prints as the string `None`. -/
def pyFormat : Option String → String
  | some s => s
  | none => "None"

/-- Translation of the `tls_key` computation in
examples/cloudfunctions/python/main.py: `tls_key` starts as the sentinel
and is replaced by the file contents only when `tls_key_path` is truthy
(set and non-empty) and names an existing regular file. -/
def handlerTlsKey (env : String → Option String) (fs : String → Option String) :
    String :=
  match env "TLS_KEY" with
  | none => "file does not exist"
  | some p =>
    if p ≠ "" then
      match fs p with
      | some contents => contents
      | none => "file does not exist"
    else "file does not exist"

/-- Translation of the body computed by `handler` in
examples/cloudfunctions/python/main.py:
`"API_KEY: {}\nTLS_KEY_PATH: {}\nTLS_KEY: {}".format(api_key, tls_key_path, tls_key)`. -/
def handlerBody (env : String → Option String) (fs : String → Option String) :
    String :=
  "API_KEY: " ++ pyFormat (env "API_KEY") ++
  "\nTLS_KEY_PATH: " ++ pyFormat (env "TLS_KEY") ++
  "\nTLS_KEY: " ++ handlerTlsKey env fs

/-- Translation of the `tls_key` computation in the route `f` of
examples/cloudrun/python/app.py, written out separately from the Cloud
Functions version so the two translations can be compared. -/
def fTlsKey (env : String → Option String) (fs : String → Option String) :
    String :=
  match env "TLS_KEY" with
  | none => "file does not exist"
  | some p =>
    if p ≠ "" then
      match fs p with
      | some contents => contents
      | none => "file does not exist"
    else "file does not exist"

/-- Translation of the body computed by the route `f` in
examples/cloudrun/python/app.py. -/
def fBody (env : String → Option String) (fs : String → Option String) :
    String :=
  "API_KEY: " ++ pyFormat (env "API_KEY") ++
  "\nTLS_KEY_PATH: " ++ pyFormat (env "TLS_KEY") ++
  "\nTLS_KEY: " ++ fTlsKey env fs

/-- A Flask `Response` as constructed by the route `f`: body, HTTP status
and mimetype. -/
structure FlaskResponse where
  response : String
  status : Nat
  mimetype : String
deriving DecidableEq

/-- Translation of the full route `f` in examples/cloudrun/python/app.py:
`Response(response=body, status=200, mimetype="text/plain")`. -/
def fResponse (env : String → Option String) (fs : String → Option String) :
    FlaskResponse :=
  ⟨fBody env fs, 200, "text/plain"⟩

/-- The shape every body produced by the example handlers takes: the API
key value, the TLS key path and the TLS key value, joined by the fixed
labels of the format string. -/
def bodyWith (api tls : Option String) (tlsVal : String) : String :=
  "API_KEY: " ++ pyFormat api ++
  "\nTLS_KEY_PATH: " ++ pyFormat tls ++
  "\nTLS_KEY: " ++ tlsVal

/-- Substring test on character lists: `needle` occurs in `hay`. -/
def subOccurs (needle : List Char) : List Char → Bool
  | [] => needle.isEmpty
  | c :: t => needle.isPrefixOf (c :: t) || subOccurs needle t

/-- Substring test: `needle` occurs somewhere inside `hay`. -/
def containsSub (hay needle : String) : Bool :=
  subOccurs needle.data hay.data

/-- An environment with no variables set. -/
def envNone : String → Option String := fun _ => none

/-- A filesystem with no regular files. -/
def fsNone : String → Option String := fun _ => none

/-- An environment in which the secret resolution mechanism has
materialized the resolved API key plaintext `s3cr3t`. -/
def envLeak : String → Option String :=
  fun k => if k = "API_KEY" then some "s3cr3t" else none

/-- An environment pointing TLS_KEY at the path `/tls`. -/
def envTls : String → Option String :=
  fun k => if k = "TLS_KEY" then some "/tls" else none

/-- A filesystem with one regular file, `/tls`, holding `KEYDATA`. -/
def fsTls : String → Option String :=
  fun q => if q = "/tls" then some "KEYDATA" else none

/-! ## Engine model

The Secret Reference Resolution and Injection Engine is not part of the
visible repository fragment; only its specification is.  The definitions
below are therefore modelled from the specification text, faithful to its
words (sections 3 to 7 of the spec). -/

/-- Modelled from the spec: a parsed secret reference, a store location,
an object name and an optional destination path (spec section 3); the
engine source is not in the visible fragment. -/
structure SecretReference where
  storeLocation : String
  objectName : String
  destination : Option String
deriving DecidableEq

/-- Cache and deduplication identity of a reference: the pair
(storeLocation, objectName); the destination selector is ignored. -/
abbrev RefKey := String × String

/-- The identity of a reference for deduplication and caching. -/
def SecretReference.key (r : SecretReference) : RefKey :=
  (r.storeLocation, r.objectName)

/-- Modelled from the spec: the error taxonomy of a single reference
resolution (spec section 7); the engine source is not in the visible
fragment. -/
inductive ErrKind where
  | malformedReference
  | notFound
  | accessDenied
  | decryptFailure
  | transientError
deriving DecidableEq

/-- Modelled from the spec: the per-reference resolution outcome, either
resolved plaintext or a typed failure (spec section 3); the engine source
is not in the visible fragment. -/
inductive Outcome where
  | resolved (plaintext : String)
  | failed (kind : ErrKind)
deriving DecidableEq

/-- The outcome with its plaintext erased: `none` for a resolution,
`some kind` for a failure.  Used to state that engine failure output
depends only on this shape, never on plaintext. -/
def outcomeShape : Outcome → Option ErrKind
  | .resolved _ => none
  | .failed kind => some kind

/-- Modelled from the spec: a binding value is either a literal or a
parsed secret reference (spec section 3, BindingSet); the engine source is
not in the visible fragment. -/
inductive BValue where
  | lit (s : String)
  | ref (r : SecretReference)
deriving DecidableEq

/-- Modelled from the spec: an ordered mapping from binding key to literal
or reference (spec section 3). -/
abbrev BindingSet := List (String × BValue)

/-- Modelled from the spec: the in-memory resolution cache, keyed by
reference identity (spec section 4.6). -/
abbrev Cache := List (RefKey × String)

/-- Look a reference key up in the cache. -/
def cacheGet : Cache → RefKey → Option String
  | [], _ => none
  | e :: c, k => if e.1 = k then some e.2 else cacheGet c k

/-- Look a reference key up in a failure list. -/
def errGet : List (RefKey × ErrKind) → RefKey → Option ErrKind
  | [], _ => none
  | e :: es, k => if e.1 = k then some e.2 else errGet es k

/-- Modelled from the spec: the fixed scheme marking a value as a secret
reference, `scheme://store-location/object-name[#destination-path]`
(spec section 6, with the scheme spelled as in its scenarios). -/
def schemeMark : String := "secret://"

/-- Split a character list at the first occurrence of `c`: the part
before it, and the part after it when it occurs at all. -/
def breakAt (c : Char) : List Char → List Char × Option (List Char)
  | [] => ([], none)
  | a :: t =>
    if a == c then ([], some t)
    else
      let r := breakAt c t
      (a :: r.1, r.2)

/-- Modelled from the spec: the Reference Parser (spec section 4.1).  A
value not starting with the scheme is a literal passed through unchanged;
a value with the scheme but a missing store location or object name is a
`MalformedReference` error; otherwise the reference is decomposed into
store location, object name and optional destination selector
(the part after the first `#`). -/
def parseValue (s : String) : Except ErrKind BValue :=
  if schemeMark.data.isPrefixOf s.data then
    let rest := s.data.drop schemeMark.data.length
    let bodyDest := breakAt '#' rest
    let dest := bodyDest.2.map fun d => String.mk d
    match breakAt '/' bodyDest.1 with
    | (_, none) => .error .malformedReference
    | (loc, some obj) =>
      if loc = [] ∨ obj = [] then .error .malformedReference
      else .ok (.ref ⟨String.mk loc, String.mk obj, dest⟩)
  else .ok (.lit s)

/-- Modelled from the spec: the fixed retry attempt limit for transient
failures, a small constant in the 3 to 5 range (spec section 4.4). -/
def attemptLimit : Nat := 3

/-- Base delay in milliseconds before the first retry. -/
def baseDelayMillis : Nat := 100

/-- Modelled from the spec: the exponential backoff delay before retry
attempt `i` (spec section 4.4); jitter is not modelled. -/
def backoffDelay (i : Nat) : Nat := baseDelayMillis * 2 ^ i

/-- Modelled from the spec: attempt a fetch+decrypt, retrying while the
outcome is a `TransientError` and retry fuel remains (spec sections 4.4
and 7).  `oracle i` is the outcome of attempt number `i`.  Returns the
final outcome together with the total number of attempts made. -/
def retryResolve (oracle : Nat → Outcome) : Nat → Nat → Outcome × Nat
  | 0, i => (oracle i, i + 1)
  | fuel + 1, i =>
    match oracle i with
    | .failed .transientError => retryResolve oracle fuel (i + 1)
    | o => (o, i + 1)

/-- Modelled from the spec: resolve a single reference, making at most
`attemptLimit` attempts in total. -/
def resolveRef (oracle : Nat → Outcome) : Outcome × Nat :=
  retryResolve oracle (attemptLimit - 1) 0

/-- Modelled from the spec: the distinct reference identities occurring in
a binding set, deduplicated by (storeLocation, objectName)
(spec section 4.4). -/
def refsOf (b : BindingSet) : List RefKey :=
  (b.filterMap fun kv =>
    match kv.2 with
    | .ref r => some r.key
    | .lit _ => none).dedup

/-- Modelled from the spec: the Resolution Scheduler loop over the
distinct reference keys (spec section 4.4): consult the cache first, on a
miss perform a fetch+decrypt with retry; record every key actually fetched
and every failure; failing keys do not stop resolution of the remaining
keys, so the aggregate failure can enumerate them all.  The per-key
`oracle` gives the outcome of each fetch+decrypt attempt. -/
def resolveAll (oracle : RefKey → Nat → Outcome) :
    Cache → List RefKey → Cache × List RefKey × List (RefKey × ErrKind)
  | cache, [] => (cache, [], [])
  | cache, k :: ks =>
    match cacheGet cache k with
    | some _ => resolveAll oracle cache ks
    | none =>
      match (resolveRef (oracle k)).1 with
      | .resolved p =>
        let r := resolveAll oracle ((k, p) :: cache) ks
        (r.1, k :: r.2.1, r.2.2)
      | .failed kind =>
        let r := resolveAll oracle cache ks
        (r.1, k :: r.2.1, (k, kind) :: r.2.2)

/-- Modelled from the spec: the Injector in in-place mode (spec
section 4.5): each binding whose value is a reference is replaced by the
resolved plaintext; literals are left as they are. -/
def inject (resolved : RefKey → Option String) (b : BindingSet) : BindingSet :=
  b.map fun kv =>
    match kv.2 with
    | .lit s => (kv.1, BValue.lit s)
    | .ref r =>
      match resolved r.key with
      | some p => (kv.1, BValue.lit p)
      | none => (kv.1, BValue.ref r)

/-- Modelled from the spec: the aggregate failure report, enumerating
every failing reference with its binding key and error kind — and nothing
else (spec section 7). -/
def failuresFor (errs : List (RefKey × ErrKind)) (b : BindingSet) :
    List (String × ErrKind) :=
  b.filterMap fun kv =>
    match kv.2 with
    | .lit _ => none
    | .ref r => (errGet errs r.key).map fun kind => (kv.1, kind)

/-- Everything a resolution pass returns: the resolved binding set or the
aggregate failure, the cache after the pass, and the list of reference
keys for which a fetch+decrypt was actually issued. -/
structure PassResult where
  result : Except (List (String × ErrKind)) BindingSet
  cache : Cache
  fetched : List RefKey

/-- Modelled from the spec: one resolution pass over a binding set (spec
sections 4.4 to 4.6 and 7): deduplicate the references, resolve each
distinct one through the cache, then either inject all plaintexts
(when nothing failed) or fail the pass as a whole with the aggregate
failure report. -/
def resolvePass (oracle : RefKey → Nat → Outcome) (cache : Cache)
    (b : BindingSet) : PassResult :=
  let r := resolveAll oracle cache (refsOf b)
  match r.2.2 with
  | [] => ⟨.ok (inject (cacheGet r.1) b), r.1, r.2.1⟩
  | _ => ⟨.error (failuresFor r.2.2 b), r.1, r.2.1⟩

/-! ## File-mode injection model -/

/-- Modelled from the spec: the observable filesystem state at one moment
of a file-mode injection (spec section 4.5): the contents at the
destination path, the contents at the temporary file in the same
directory, and the permission bits of the temporary file.  `none` means
the file is absent or, for permissions, not yet restricted. -/
structure InjectState where
  dest : Option String
  tmp : Option String
  tmpMode : Option Nat
deriving DecidableEq

/-- Owner-only read/write permission bits (octal 600). -/
def ownerRW : Nat := 0o600

/-- Modelled from the spec: the sequence of filesystem states a file-mode
injection passes through (spec section 4.5): acquire a temporary file in
the destination directory, write the plaintext into it in chunks, set
owner-only read/write permissions, then atomically rename it over the
destination.  `old` is the prior contents of the destination path
(`none` when absent); the destination only ever changes in the final
rename step. -/
def injectTrace (old : Option String) (chunks : List String) :
    List InjectState :=
  ⟨old, none, none⟩ ::
  ((List.range (chunks.length + 1)).map fun i =>
    ⟨old, some (String.join (chunks.take i)), none⟩) ++
  [⟨old, some (String.join chunks), some ownerRW⟩,
   ⟨some (String.join chunks), none, none⟩]

/-! ## Concrete engine scenarios

Small concrete instances, used to evaluate the engine model on the
scenarios of spec section 8. -/

/-- The reference of the scenario in spec section 8: object `api-key` in
store `proj`. -/
def refW : SecretReference := ⟨"proj", "api-key", none⟩

/-- The scenario binding set: API_KEY is a reference, PORT a literal. -/
def bW : BindingSet := [("API_KEY", .ref refW), ("PORT", .lit "8080")]

/-- A second scenario binding set with two distinct references. -/
def b2W : BindingSet :=
  [("API_KEY", .ref refW), ("DB", .ref ⟨"proj", "db", none⟩),
   ("PORT", .lit "8080")]

/-- A store in which every fetch+decrypt yields the plaintext `abc123`. -/
def oracleOK : RefKey → Nat → Outcome := fun _ _ => .resolved "abc123"

/-- A store in which every object is missing. -/
def oracleMissing : RefKey → Nat → Outcome := fun _ _ => .failed .notFound

/-- A single-reference attempt oracle that always reports NotFound. -/
def oracleOnce : Nat → Outcome := fun _ => .failed .notFound

/-- A store where `proj/db` decrypts to `A` and everything else is
missing. -/
def oracleMixA : RefKey → Nat → Outcome :=
  fun k _ => if k = ("proj", "db") then .resolved "A" else .failed .notFound

/-- The same store shape, but `proj/db` decrypts to `B`: identical error
structure, different plaintext. -/
def oracleMixB : RefKey → Nat → Outcome :=
  fun k _ => if k = ("proj", "db") then .resolved "B" else .failed .notFound

/-! ## Theorems about the example handlers -/

/-- C1: whenever TLS_KEY is unset, empty, or names a path that is not an
existing regular file, the cloudfunctions handler and the cloudrun route
both return a body in which the TLS key value is the sentinel string
`file does not exist`; no error is raised and no typed absent-file error
surfaces. -/
theorem missing_tls_key_yields_sentinel
    (env fs : String → Option String)
    (h : env "TLS_KEY" = none ∨ env "TLS_KEY" = some "" ∨
      ∃ p, env "TLS_KEY" = some p ∧ fs p = none) :
    handlerBody env fs =
      bodyWith (env "API_KEY") (env "TLS_KEY") "file does not exist" ∧
    fBody env fs =
      bodyWith (env "API_KEY") (env "TLS_KEY") "file does not exist" := by
  have ht : handlerTlsKey env fs = "file does not exist" := by
    rcases h with h | h | ⟨p, hp, hf⟩
    · simp [handlerTlsKey, h]
    · simp [handlerTlsKey, h]
    · by_cases hp0 : p = ""
      · simp [handlerTlsKey, hp, hp0]
      · simp [handlerTlsKey, hp, hp0, hf]
  have hb : fTlsKey env fs = handlerTlsKey env fs := rfl
  constructor
  · unfold handlerBody bodyWith
    rw [ht]
  · unfold fBody bodyWith
    rw [hb, ht]

/-- Witness for C1 at the empty environment. -/
theorem missing_tls_key_yields_sentinel_witness :
    handlerBody envNone fsNone =
      bodyWith (envNone "API_KEY") (envNone "TLS_KEY") "file does not exist" ∧
    fBody envNone fsNone =
      bodyWith (envNone "API_KEY") (envNone "TLS_KEY") "file does not exist" :=
  missing_tls_key_yields_sentinel envNone fsNone (Or.inl rfl)

/-- C2 counterexample: with the resolved API key plaintext `s3cr3t`
materialized into the environment by the secret resolution mechanism, the
body the handler returns for the request contains that plaintext verbatim,
so output produced on behalf of a request does contain the plaintext of a
resolved secret. -/
theorem request_body_contains_resolved_plaintext :
    containsSub (handlerBody envLeak fsNone) "s3cr3t" = true ∧
    handlerBody envLeak fsNone =
      "API_KEY: s3cr3t\nTLS_KEY_PATH: None\nTLS_KEY: file does not exist" := by
  constructor
  · decide
  · rfl

/-- C3: each example handler reads exactly the environment variables
API_KEY and TLS_KEY — two environments agreeing on those two variables
produce identical bodies — and when TLS_KEY names an existing regular
file (a truthy path present in the filesystem), the handler reads the
full file contents and formats the body from the API key value, the path
and those contents. -/
theorem handlers_read_api_key_tls_key_and_file
    (env env2 fs : String → Option String) (p c : String) :
    (env "API_KEY" = env2 "API_KEY" → env "TLS_KEY" = env2 "TLS_KEY" →
      handlerBody env fs = handlerBody env2 fs ∧
      fBody env fs = fBody env2 fs) ∧
    (env "TLS_KEY" = some p → p ≠ "" → fs p = some c →
      handlerBody env fs = bodyWith (env "API_KEY") (some p) c ∧
      fBody env fs = bodyWith (env "API_KEY") (some p) c) := by
  constructor
  · intro h1 h2
    have ht : handlerTlsKey env fs = handlerTlsKey env2 fs := by
      unfold handlerTlsKey
      rw [h2]
    have hb : handlerBody env fs = handlerBody env2 fs := by
      unfold handlerBody
      rw [h1, h2, ht]
    exact ⟨hb, hb⟩
  · intro hp hp0 hc
    have ht : handlerTlsKey env fs = c := by
      unfold handlerTlsKey
      rw [hp]
      simp [hp0, hc]
    have hb : handlerBody env fs = bodyWith (env "API_KEY") (some p) c := by
      unfold handlerBody bodyWith
      rw [hp, ht]
    exact ⟨hb, hb⟩

/-- Witness for C3: a TLS_KEY pointing at an existing file `/tls` holding
`KEYDATA` makes the body carry those contents. -/
theorem handlers_read_api_key_tls_key_and_file_witness :
    handlerBody envTls fsTls = bodyWith (envTls "API_KEY") (some "/tls") "KEYDATA" ∧
    fBody envTls fsTls = bodyWith (envTls "API_KEY") (some "/tls") "KEYDATA" :=
  (handlers_read_api_key_tls_key_and_file envTls envTls fsTls "/tls" "KEYDATA").2
    (by decide) (by decide) (by decide)

/-- C9: for every environment and filesystem state, the body produced by
the cloudfunctions handler and the body produced by the cloudrun route
are the same string: the two example programs are observationally
equivalent in the text they produce. -/
theorem handler_body_equals_route_body
    (env fs : String → Option String) :
    handlerBody env fs = fBody env fs := rfl

/-- C10: every response of the cloudrun route has HTTP status 200 and
mimetype text/plain, whatever the environment and filesystem hold:
missing secrets never cause an error response. -/
theorem route_response_always_200_text_plain
    (env fs : String → Option String) :
    (fResponse env fs).status = 200 ∧
    (fResponse env fs).mimetype = "text/plain" :=
  ⟨rfl, rfl⟩

/-! ## Lemmas about the retry loop -/

/-- The retry loop makes at most `fuel + 1` attempts beyond the starting
attempt index. -/
theorem retryResolve_attempts_le (oracle : Nat → Outcome) :
    ∀ fuel i, (retryResolve oracle fuel i).2 ≤ i + fuel + 1 := by
  intro fuel
  induction fuel with
  | zero =>
    intro i
    simp [retryResolve]
  | succ f ih =>
    intro i
    have hstep := ih (i + 1)
    cases h : oracle i with
    | resolved p => simp [retryResolve, h]
    | failed kind => cases kind <;> simp [retryResolve, h] <;> omega

/-- A resolved outcome of the retry loop comes from some attempt of the
oracle within the fuel window. -/
theorem retryResolve_resolved_from_attempt (oracle : Nat → Outcome) :
    ∀ fuel i p, (retryResolve oracle fuel i).1 = .resolved p →
      ∃ j, i ≤ j ∧ j ≤ i + fuel ∧ oracle j = .resolved p := by
  intro fuel
  induction fuel with
  | zero =>
    intro i p h
    simp [retryResolve] at h
    exact ⟨i, le_refl i, by omega, h⟩
  | succ f ih =>
    intro i p h
    cases ho : oracle i with
    | resolved q =>
      simp [retryResolve, ho] at h
      exact ⟨i, le_refl i, by omega, by rw [ho, h]⟩
    | failed kind =>
      cases kind with
      | transientError =>
        simp [retryResolve, ho] at h
        obtain ⟨j, hj1, hj2, hj3⟩ := ih (i + 1) p h
        exact ⟨j, by omega, by omega, hj3⟩
      | malformedReference => simp [retryResolve, ho] at h
      | notFound => simp [retryResolve, ho] at h
      | accessDenied => simp [retryResolve, ho] at h
      | decryptFailure => simp [retryResolve, ho] at h

/-- When every attempt is transient, the retry loop exhausts its fuel and
escalates the transient failure. -/
theorem retryResolve_all_transient (oracle : Nat → Outcome)
    (h : ∀ j, oracle j = .failed .transientError) :
    ∀ fuel i, retryResolve oracle fuel i =
      (.failed .transientError, i + fuel + 1) := by
  intro fuel
  induction fuel with
  | zero =>
    intro i
    simp [retryResolve, h i]
  | succ f ih =>
    intro i
    have := ih (i + 1)
    simp [retryResolve, h i, this]
    omega

/-- C5: a transient failure is retried up to the fixed attempt limit and
then escalated, every other error kind propagates immediately after a
single attempt, the engine never fabricates plaintext the oracle did not
produce, and the backoff delay grows exponentially. -/
theorem transient_retried_other_errors_immediate (oracle : Nat → Outcome) :
    (∀ kd, kd ≠ ErrKind.transientError → oracle 0 = .failed kd →
      resolveRef oracle = (.failed kd, 1)) ∧
    (resolveRef oracle).2 ≤ attemptLimit ∧
    (∀ p, (resolveRef oracle).1 = .resolved p →
      ∃ i, i < attemptLimit ∧ oracle i = .resolved p) ∧
    ((∀ j, oracle j = .failed .transientError) →
      resolveRef oracle = (.failed .transientError, attemptLimit)) ∧
    (∀ i, backoffDelay (i + 1) = 2 * backoffDelay i) := by
  refine ⟨?_, ?_, ?_, ?_, ?_⟩
  · intro kd hkd h
    cases kd with
    | transientError => exact absurd rfl hkd
    | malformedReference => simp [resolveRef, attemptLimit, retryResolve, h]
    | notFound => simp [resolveRef, attemptLimit, retryResolve, h]
    | accessDenied => simp [resolveRef, attemptLimit, retryResolve, h]
    | decryptFailure => simp [resolveRef, attemptLimit, retryResolve, h]
  · have := retryResolve_attempts_le oracle (attemptLimit - 1) 0
    simpa [resolveRef, attemptLimit] using this
  · intro p h
    obtain ⟨j, _, hj2, hj3⟩ :=
      retryResolve_resolved_from_attempt oracle (attemptLimit - 1) 0 p h
    refine ⟨j, ?_, hj3⟩
    simp [attemptLimit] at hj2 ⊢
    omega
  · intro h
    have := retryResolve_all_transient oracle h (attemptLimit - 1) 0
    simpa [resolveRef, attemptLimit] using this
  · intro i
    simp [backoffDelay, pow_succ]
    ring

/-- Witness for C5: an oracle reporting NotFound propagates it on the
first attempt without retrying. -/
theorem transient_retried_witness :
    resolveRef oracleOnce = (.failed .notFound, 1) :=
  (transient_retried_other_errors_immediate oracleOnce).1
    .notFound (by decide) rfl

/-! ## Lemmas about the scheduler loop -/

/-- A cache entry survives a scheduler run: the loop only ever adds
entries for keys that were absent. -/
theorem cacheGet_resolveAll (oracle : RefKey → Nat → Outcome) :
    ∀ ks cache k p, cacheGet cache k = some p →
      cacheGet (resolveAll oracle cache ks).1 k = some p := by
  intro ks
  induction ks with
  | nil =>
    intro cache k p h
    simpa [resolveAll] using h
  | cons k0 ks ih =>
    intro cache k p h
    cases hhit : cacheGet cache k0 with
    | some q =>
      simpa [resolveAll, hhit] using ih cache k p h
    | none =>
      cases hres : (resolveRef (oracle k0)).1 with
      | resolved q =>
        have hk : k0 ≠ k := by
          intro he
          rw [he] at hhit
          rw [hhit] at h
          exact Option.noConfusion h
        have hcons : cacheGet ((k0, q) :: cache) k = some p := by
          simp [cacheGet, hk, h]
        simpa [resolveAll, hhit, hres] using ih ((k0, q) :: cache) k p hcons
      | failed kd =>
        simpa [resolveAll, hhit, hres] using ih cache k p h

/-- When the scheduler reports no failures, every requested key ends up in
the cache. -/
theorem resolveAll_no_failures_all_cached (oracle : RefKey → Nat → Outcome) :
    ∀ ks cache, (resolveAll oracle cache ks).2.2 = [] →
      ∀ k, k ∈ ks → ∃ p, cacheGet (resolveAll oracle cache ks).1 k = some p := by
  intro ks
  induction ks with
  | nil =>
    intro cache _ k hk
    exact absurd hk (List.not_mem_nil k)
  | cons k0 ks ih =>
    intro cache herr k hk
    cases hhit : cacheGet cache k0 with
    | some q =>
      have herr2 : (resolveAll oracle cache ks).2.2 = [] := by
        simpa [resolveAll, hhit] using herr
      rcases List.mem_cons.mp hk with he | hin
      · subst he
        exact ⟨q, by simpa [resolveAll, hhit] using
          cacheGet_resolveAll oracle ks cache k q hhit⟩
      · obtain ⟨p, hp⟩ := ih cache herr2 k hin
        exact ⟨p, by simpa [resolveAll, hhit] using hp⟩
    | none =>
      cases hres : (resolveRef (oracle k0)).1 with
      | resolved q =>
        have herr2 : (resolveAll oracle ((k0, q) :: cache) ks).2.2 = [] := by
          simpa [resolveAll, hhit, hres] using herr
        rcases List.mem_cons.mp hk with he | hin
        · subst he
          have hcons : cacheGet ((k, q) :: cache) k = some q := by
            simp [cacheGet]
          exact ⟨q, by simpa [resolveAll, hhit, hres] using
            cacheGet_resolveAll oracle ks ((k, q) :: cache) k q hcons⟩
        · obtain ⟨p, hp⟩ := ih ((k0, q) :: cache) herr2 k hin
          exact ⟨p, by simpa [resolveAll, hhit, hres] using hp⟩
      | failed kd =>
        have : (resolveAll oracle cache (k0 :: ks)).2.2 =
            (k0, kd) :: (resolveAll oracle cache ks).2.2 := by
          simp [resolveAll, hhit, hres]
        rw [this] at herr
        exact absurd herr (List.cons_ne_nil _ _)

/-- A key whose fetch+decrypt fails, and which is neither cached nor
shadowed by a duplicate, is reported in the scheduler failure list. -/
theorem resolveAll_failure_reported (oracle : RefKey → Nat → Outcome) :
    ∀ ks cache k kd, ks.Nodup → k ∈ ks → cacheGet cache k = none →
      (resolveRef (oracle k)).1 = .failed kd →
      (k, kd) ∈ (resolveAll oracle cache ks).2.2 := by
  intro ks
  induction ks with
  | nil =>
    intro cache k kd _ hk
    exact absurd hk (List.not_mem_nil k)
  | cons k0 ks ih =>
    intro cache k kd hnd hk hc hres
    have hnd0 : k0 ∉ ks := (List.nodup_cons.mp hnd).1
    have hndt : ks.Nodup := (List.nodup_cons.mp hnd).2
    rcases List.mem_cons.mp hk with he | hin
    · subst he
      simp [resolveAll, hc, hres]
    · have hk0 : k0 ≠ k := fun he => hnd0 (he ▸ hin)
      cases hhit : cacheGet cache k0 with
      | some q =>
        simpa [resolveAll, hhit] using ih cache k kd hndt hin hc hres
      | none =>
        cases hres0 : (resolveRef (oracle k0)).1 with
        | resolved q =>
          have hc2 : cacheGet ((k0, q) :: cache) k = none := by
            simp [cacheGet, hk0, hc]
          simpa [resolveAll, hhit, hres0] using
            ih ((k0, q) :: cache) k kd hndt hin hc2 hres
        | failed kd0 =>
          have := ih cache k kd hndt hin hc hres
          simp [resolveAll, hhit, hres0]
          exact Or.inr this

/-- When every requested key is already cached, the scheduler does
nothing: no fetch, no failure, no cache change. -/
theorem resolveAll_all_cached (oracle : RefKey → Nat → Outcome) :
    ∀ ks cache, (∀ k, k ∈ ks → ∃ p, cacheGet cache k = some p) →
      resolveAll oracle cache ks = (cache, [], []) := by
  intro ks
  induction ks with
  | nil =>
    intro cache _
    simp [resolveAll]
  | cons k0 ks ih =>
    intro cache hall
    obtain ⟨p, hp⟩ := hall k0 (List.mem_cons_self k0 ks)
    have := ih cache fun k hk => hall k (List.mem_cons_of_mem k0 hk)
    simp [resolveAll, hp, this]

/-- The keys the scheduler actually fetches form a sublist of the keys it
was asked for. -/
theorem resolveAll_fetched_sublist (oracle : RefKey → Nat → Outcome) :
    ∀ ks cache, List.Sublist (resolveAll oracle cache ks).2.1 ks := by
  intro ks
  induction ks with
  | nil =>
    intro cache
    simp [resolveAll]
  | cons k0 ks ih =>
    intro cache
    cases hhit : cacheGet cache k0 with
    | some q =>
      have := ih cache
      simpa [resolveAll, hhit] using this.cons k0
    | none =>
      cases hres : (resolveRef (oracle k0)).1 with
      | resolved q =>
        have := ih ((k0, q) :: cache)
        simpa [resolveAll, hhit, hres] using this.cons₂ k0
      | failed kd =>
        have := ih cache
        simpa [resolveAll, hhit, hres] using this.cons₂ k0

/-- Unfolding equation for a pass whose scheduler run reports no
failures. -/
theorem resolvePass_of_no_failures (oracle : RefKey → Nat → Outcome)
    (cache : Cache) (b : BindingSet) (c : Cache) (f : List RefKey)
    (h : resolveAll oracle cache (refsOf b) = (c, f, [])) :
    resolvePass oracle cache b = ⟨.ok (inject (cacheGet c) b), c, f⟩ := by
  simp only [resolvePass, h]

/-- Unfolding equation for a pass whose scheduler run reports at least
one failure. -/
theorem resolvePass_of_failures (oracle : RefKey → Nat → Outcome)
    (cache : Cache) (b : BindingSet) (c : Cache) (f : List RefKey)
    (x : RefKey × ErrKind) (xs : List (RefKey × ErrKind))
    (h : resolveAll oracle cache (refsOf b) = (c, f, x :: xs)) :
    resolvePass oracle cache b = ⟨.error (failuresFor (x :: xs) b), c, f⟩ := by
  simp only [resolvePass, h]

/-- The retry loop is shape-deterministic: two oracles whose outcomes
agree after erasing plaintext produce final outcomes that agree after
erasing plaintext. -/
theorem retryResolve_shape (o1 o2 : Nat → Outcome)
    (h : ∀ n, outcomeShape (o1 n) = outcomeShape (o2 n)) :
    ∀ fuel i, outcomeShape (retryResolve o1 fuel i).1 =
      outcomeShape (retryResolve o2 fuel i).1 := by
  intro fuel
  induction fuel with
  | zero =>
    intro i
    simpa [retryResolve] using h i
  | succ f ih =>
    intro i
    have hi := h i
    cases h1 : o1 i with
    | resolved p =>
      rw [h1] at hi
      cases h2 : o2 i with
      | resolved q => simp [retryResolve, h1, h2, outcomeShape]
      | failed kd =>
        rw [h2] at hi
        simp [outcomeShape] at hi
    | failed kd =>
      rw [h1] at hi
      cases h2 : o2 i with
      | resolved q =>
        rw [h2] at hi
        simp [outcomeShape] at hi
      | failed kd2 =>
        rw [h2] at hi
        simp [outcomeShape] at hi
        subst hi
        cases kd with
        | transientError =>
          simpa [retryResolve, h1, h2] using ih (i + 1)
        | malformedReference => simp [retryResolve, h1, h2]
        | notFound => simp [retryResolve, h1, h2]
        | accessDenied => simp [retryResolve, h1, h2]
        | decryptFailure => simp [retryResolve, h1, h2]

/-- The scheduler is shape-deterministic: with oracles and starting
caches that agree after erasing plaintext, the failure list and the
fetched keys coincide, and the final caches again agree after erasing
plaintext. -/
theorem resolveAll_shape (o1 o2 : RefKey → Nat → Outcome)
    (h : ∀ k n, outcomeShape (o1 k n) = outcomeShape (o2 k n)) :
    ∀ ks c1 c2, (∀ k, (cacheGet c1 k).isSome = (cacheGet c2 k).isSome) →
      (resolveAll o1 c1 ks).2.2 = (resolveAll o2 c2 ks).2.2 ∧
      (resolveAll o1 c1 ks).2.1 = (resolveAll o2 c2 ks).2.1 ∧
      ∀ k, (cacheGet (resolveAll o1 c1 ks).1 k).isSome =
        (cacheGet (resolveAll o2 c2 ks).1 k).isSome := by
  intro ks
  induction ks with
  | nil =>
    intro c1 c2 hc
    simpa [resolveAll] using hc
  | cons k0 ks ih =>
    intro c1 c2 hc
    have hc0 := hc k0
    cases hh1 : cacheGet c1 k0 with
    | some p1 =>
      cases hh2 : cacheGet c2 k0 with
      | some p2 =>
        simpa [resolveAll, hh1, hh2] using ih c1 c2 hc
      | none =>
        rw [hh1, hh2] at hc0
        simp at hc0
    | none =>
      cases hh2 : cacheGet c2 k0 with
      | some p2 =>
        rw [hh1, hh2] at hc0
        simp at hc0
      | none =>
        have hsh : outcomeShape (resolveRef (o1 k0)).1 =
            outcomeShape (resolveRef (o2 k0)).1 :=
          retryResolve_shape (o1 k0) (o2 k0) (h k0) (attemptLimit - 1) 0
        cases hr1 : (resolveRef (o1 k0)).1 with
        | resolved p1 =>
          cases hr2 : (resolveRef (o2 k0)).1 with
          | resolved p2 =>
            have hc2 : ∀ k, (cacheGet ((k0, p1) :: c1) k).isSome =
                (cacheGet ((k0, p2) :: c2) k).isSome := by
              intro k
              by_cases hk : k0 = k
              · simp [cacheGet, hk]
              · simp [cacheGet, hk, hc k]
            have hrec := ih ((k0, p1) :: c1) ((k0, p2) :: c2) hc2
            simp [resolveAll, hh1, hh2, hr1, hr2]
            exact ⟨hrec.1, hrec.2.1, fun a b => hrec.2.2 (a, b)⟩
          | failed kd =>
            rw [hr1, hr2] at hsh
            simp [outcomeShape] at hsh
        | failed kd =>
          cases hr2 : (resolveRef (o2 k0)).1 with
          | resolved p2 =>
            rw [hr1, hr2] at hsh
            simp [outcomeShape] at hsh
          | failed kd2 =>
            have hkd : kd = kd2 := by
              rw [hr1, hr2] at hsh
              simpa [outcomeShape] using hsh
            subst hkd
            have hrec := ih c1 c2 hc
            simp [resolveAll, hh1, hh2, hr1, hr2]
            exact ⟨hrec.1, hrec.2.1, fun a b => hrec.2.2 (a, b)⟩

/-! ## Claim theorems about the scheduler -/

/-- C4: a resolution pass is all-or-nothing: on success every entry of
the returned binding set is a literal, no reference remains; and a
reference that fails to resolve makes the pass as a whole report failure,
so the engine never returns a binding set mixing resolved secrets with
unresolved references. -/
theorem pass_success_leaves_no_reference (oracle : RefKey → Nat → Outcome)
    (cache : Cache) (b : BindingSet) :
    (∀ out, (resolvePass oracle cache b).result = .ok out →
      ∀ kv, kv ∈ out → ∃ s, kv.2 = BValue.lit s) ∧
    (∀ k r kd, (k, BValue.ref r) ∈ b → cacheGet cache r.key = none →
      (resolveRef (oracle r.key)).1 = .failed kd →
      ∃ e, (resolvePass oracle cache b).result = .error e) := by
  constructor
  · intro out hout kv hkv
    cases herr : (resolveAll oracle cache (refsOf b)).2.2 with
    | cons x xs => simp [resolvePass, herr] at hout
    | nil =>
      have hout2 :
          out = inject (cacheGet (resolveAll oracle cache (refsOf b)).1) b := by
        simp [resolvePass, herr] at hout
        exact hout.symm
      subst hout2
      obtain ⟨a, ha, hfa⟩ := List.mem_map.mp hkv
      cases hv : a.2 with
      | lit s =>
        rw [hv] at hfa
        exact ⟨s, by rw [← hfa]⟩
      | ref r =>
        have hkey : r.key ∈ refsOf b := by
          unfold refsOf
          rw [List.mem_dedup]
          refine List.mem_filterMap.mpr ⟨a, ha, ?_⟩
          rw [hv]
        obtain ⟨p, hp⟩ :=
          resolveAll_no_failures_all_cached oracle (refsOf b) cache herr r.key hkey
        rw [hv] at hfa
        dsimp only at hfa
        rw [hp] at hfa
        exact ⟨p, by rw [← hfa]⟩
  · intro k r kd hmem hc hres
    have hkey : r.key ∈ refsOf b := by
      unfold refsOf
      rw [List.mem_dedup]
      exact List.mem_filterMap.mpr ⟨(k, BValue.ref r), hmem, rfl⟩
    have hrep := resolveAll_failure_reported oracle (refsOf b) cache r.key kd
      (List.nodup_dedup _) hkey hc hres
    cases herr : (resolveAll oracle cache (refsOf b)).2.2 with
    | nil =>
      rw [herr] at hrep
      exact absurd hrep (List.not_mem_nil _)
    | cons x xs =>
      exact ⟨failuresFor (x :: xs) b, by simp [resolvePass, herr]⟩

/-- Witness for C4: in the scenario binding set, a missing object makes
the whole pass fail. -/
theorem pass_success_leaves_no_reference_witness :
    ∃ e, (resolvePass oracleMissing [] bW).result = .error e :=
  (pass_success_leaves_no_reference oracleMissing [] bW).2 "API_KEY" refW
    .notFound (by decide) rfl rfl

/-- C6: a value that does not match the scheme is parsed as a literal
passed through unchanged; on a successful pass every literal binding is
returned exactly as it went in; and on a failed pass the failure report
only ever names bindings whose value was a reference, so a passthrough
binding is untouched in either case. -/
theorem passthrough_bindings_unchanged (oracle : RefKey → Nat → Outcome)
    (cache : Cache) (b : BindingSet) :
    (∀ v : String, schemeMark.data.isPrefixOf v.data = false →
      parseValue v = .ok (.lit v)) ∧
    (∀ out, (resolvePass oracle cache b).result = .ok out →
      List.Forall₂ (fun x y : String × BValue =>
        ∀ s, x.2 = BValue.lit s → y = x) b out) ∧
    (∀ e, (resolvePass oracle cache b).result = .error e →
      ∀ k kd, (k, kd) ∈ e → ∃ r, (k, BValue.ref r) ∈ b) := by
  refine ⟨?_, ?_, ?_⟩
  · intro v h
    simp [parseValue, h]
  · intro out hout
    cases herr : (resolveAll oracle cache (refsOf b)).2.2 with
    | cons x xs => simp [resolvePass, herr] at hout
    | nil =>
      have hout2 :
          out = inject (cacheGet (resolveAll oracle cache (refsOf b)).1) b := by
        simp [resolvePass, herr] at hout
        exact hout.symm
      subst hout2
      unfold inject
      rw [List.forall₂_map_right_iff]
      rw [List.forall₂_same]
      intro x hx s hxs
      rw [hxs]
      exact Prod.ext rfl hxs.symm
  · intro e he k kd hk
    cases herr : (resolveAll oracle cache (refsOf b)).2.2 with
    | nil => simp [resolvePass, herr] at he
    | cons x xs =>
      have he2 : failuresFor (x :: xs) b = e := by
        simp [resolvePass, herr] at he
        exact he
      rw [← he2] at hk
      obtain ⟨⟨a1, a2⟩, ha, hfa⟩ := List.mem_filterMap.mp hk
      cases a2 with
      | lit s => simp at hfa
      | ref r =>
        refine ⟨r, ?_⟩
        have ha1 : a1 = k := by
          obtain ⟨kd0, _, heq⟩ := Option.map_eq_some'.mp hfa
          exact (Prod.mk.injEq _ _ _ _ ▸ heq).1
        rw [← ha1]
        exact ha

/-- Witness for C6: the literal value 8080 of the scenario parses as a
passthrough literal. -/
theorem passthrough_bindings_unchanged_witness :
    parseValue "8080" = .ok (.lit "8080") :=
  (passthrough_bindings_unchanged oracleOK [] bW).1 "8080" (by decide)

/-- C8: within one pass the engine issues at most one fetch+decrypt per
distinct (storeLocation, objectName) pair — the fetched keys are pairwise
distinct — and resolving the same binding set again with the cache the
first pass produced yields the identical resolved bindings while issuing
no fetch+decrypt at all. -/
theorem repeated_pass_same_plaintext_dedup (oracle : RefKey → Nat → Outcome)
    (cache : Cache) (b : BindingSet) :
    (resolvePass oracle cache b).fetched.Nodup ∧
    (∀ out, (resolvePass oracle cache b).result = .ok out →
      (resolvePass oracle (resolvePass oracle cache b).cache b).result =
        .ok out ∧
      (resolvePass oracle (resolvePass oracle cache b).cache b).fetched = []) := by
  constructor
  · have hsub := resolveAll_fetched_sublist oracle (refsOf b) cache
    have hnd : (refsOf b).Nodup := List.nodup_dedup _
    have hfe : (resolvePass oracle cache b).fetched =
        (resolveAll oracle cache (refsOf b)).2.1 := by
      cases herr : (resolveAll oracle cache (refsOf b)).2.2 with
      | nil => simp [resolvePass, herr]
      | cons x xs => simp [resolvePass, herr]
    rw [hfe]
    exact hnd.sublist hsub
  · intro out hout
    cases herr : (resolveAll oracle cache (refsOf b)).2.2 with
    | cons x xs => simp [resolvePass, herr] at hout
    | nil =>
      have h1 : resolveAll oracle cache (refsOf b) =
          ((resolveAll oracle cache (refsOf b)).1,
            (resolveAll oracle cache (refsOf b)).2.1, []) := by
        rw [← herr]
      have hp1 := resolvePass_of_no_failures oracle cache b
        (resolveAll oracle cache (refsOf b)).1
        (resolveAll oracle cache (refsOf b)).2.1 h1
      have hcached :=
        resolveAll_no_failures_all_cached oracle (refsOf b) cache herr
      have hall : ∀ k, k ∈ refsOf b →
          ∃ p, cacheGet (resolvePass oracle cache b).cache k = some p := by
        rw [hp1]
        exact hcached
      have hra := resolveAll_all_cached oracle (refsOf b)
        (resolvePass oracle cache b).cache hall
      have hp2 := resolvePass_of_no_failures oracle
        (resolvePass oracle cache b).cache b
        (resolvePass oracle cache b).cache [] hra
      have hout2 :
          out = inject (cacheGet (resolveAll oracle cache (refsOf b)).1) b := by
        rw [hp1] at hout
        exact (Except.ok.injEq _ _ ▸ hout).symm
      constructor
      · rw [hp2, hout2, hp1]
      · rw [hp2]

/-- Witness for C8: re-resolving the scenario binding set with the cache
of the first pass returns the same resolved bindings and fetches
nothing. -/
theorem repeated_pass_same_plaintext_dedup_witness :
    (resolvePass oracleOK (resolvePass oracleOK [] bW).cache bW).result =
      .ok [("API_KEY", BValue.lit "abc123"), ("PORT", BValue.lit "8080")] ∧
    (resolvePass oracleOK (resolvePass oracleOK [] bW).cache bW).fetched = [] :=
  (repeated_pass_same_plaintext_dedup oracleOK [] bW).2
    [("API_KEY", BValue.lit "abc123"), ("PORT", BValue.lit "8080")] rfl

/-- C2 as amended: the failure output of a resolution pass is independent
of every plaintext in play — two stores that agree after erasing
plaintext, with caches cached on the same keys, produce exactly the same
failure reports, so the engine failure report can carry only binding keys
and error kinds, never plaintext or key material. -/
theorem failure_output_plaintext_independent
    (o1 o2 : RefKey → Nat → Outcome) (c1 c2 : Cache) (b : BindingSet)
    (hshape : ∀ k n, outcomeShape (o1 k n) = outcomeShape (o2 k n))
    (hcache : ∀ k, (cacheGet c1 k).isSome = (cacheGet c2 k).isSome) :
    ∀ e, (resolvePass o1 c1 b).result = .error e ↔
      (resolvePass o2 c2 b).result = .error e := by
  intro e
  have h := resolveAll_shape o1 o2 hshape (refsOf b) c1 c2 hcache
  cases herr1 : (resolveAll o1 c1 (refsOf b)).2.2 with
  | nil =>
    have herr2 : (resolveAll o2 c2 (refsOf b)).2.2 = [] := by
      rw [← h.1, herr1]
    simp [resolvePass, herr1, herr2]
  | cons x xs =>
    have herr2 : (resolveAll o2 c2 (refsOf b)).2.2 = x :: xs := by
      rw [← h.1, herr1]
    simp [resolvePass, herr1, herr2]

/-- Witness for the amended C2: two stores whose only difference is the
plaintext of `proj/db` (`A` against `B`) yield the same failure report on
the two-reference scenario binding set. -/
theorem failure_output_plaintext_independent_witness :
    (resolvePass oracleMixA [] b2W).result =
        .error [("API_KEY", ErrKind.notFound)] ↔
      (resolvePass oracleMixB [] b2W).result =
        .error [("API_KEY", ErrKind.notFound)] :=
  failure_output_plaintext_independent oracleMixA oracleMixB [] [] b2W
    (fun k n => by
      by_cases hk : k = ("proj", "db")
      · simp [oracleMixA, oracleMixB, hk, outcomeShape]
      · simp [oracleMixA, oracleMixB, hk, outcomeShape])
    (fun _ => rfl) [("API_KEY", ErrKind.notFound)]

/-- C7: during a file-mode injection the destination path only ever holds
its old complete contents or the new complete plaintext — a reader
polling it never observes a partial write — the plaintext is assembled in
a temporary file which receives owner-only read/write permissions, and
the final state is the rename having installed the complete new contents
with the temporary file gone. -/
theorem file_injection_no_torn_reads (old : Option String)
    (chunks : List String) :
    (∀ s, s ∈ injectTrace old chunks →
      s.dest = old ∨ s.dest = some (String.join chunks)) ∧
    (InjectState.mk old (some (String.join chunks)) (some ownerRW) ∈
      injectTrace old chunks) ∧
    (∃ t, injectTrace old chunks =
      t ++ [InjectState.mk (some (String.join chunks)) none none]) := by
  refine ⟨?_, ?_, ?_⟩
  · intro s hs
    simp [injectTrace] at hs
    rcases hs with h | ⟨i, _, h⟩ | h | h
    · rw [h]
      exact Or.inl rfl
    · rw [← h]
      exact Or.inl rfl
    · rw [h]
      exact Or.inl rfl
    · rw [h]
      exact Or.inr rfl
  · simp [injectTrace]
  · refine ⟨InjectState.mk old none none ::
      (((List.range (chunks.length + 1)).map fun i =>
        InjectState.mk old (some (String.join (chunks.take i))) none) ++
      [InjectState.mk old (some (String.join chunks)) (some ownerRW)]), ?_⟩
    simp [injectTrace]

/-- Witness for C7: a mid-write state of a concrete injection trace — the
temporary file holds half the plaintext — still shows the old contents at
the destination. -/
theorem file_injection_no_torn_reads_witness :
    (InjectState.mk (some "OLD") (some "NE") none).dest = some "OLD" ∨
    (InjectState.mk (some "OLD") (some "NE") none).dest =
      some (String.join ["NE", "W"]) :=
  (file_injection_no_torn_reads (some "OLD") ["NE", "W"]).1
    ⟨some "OLD", some "NE", none⟩ (by decide)

end Berglas
